import Mathlib

/-!
Shallow embedding of the UBMP4 Adv-2-SONAR program (Adv-2-SONAR.c) and
proofs about its range-measurement routines, readiness check and LED
display cascade.

Modelling conventions.

The ECHO input line is sampled by the program at discrete points in time.
Inside the range-counting do-while loops one sample is taken per loop
iteration, after the 58-microsecond delay, so the samples taken by the
counting loop form a boolean sequence; we represent the portion of that
sequence up to and including the first deasserted sample as a
`List Bool` in which every listed element is the sample read at one
check, and the end of the list (or an explicit `false` element) is the
first deasserted sample, which terminates the loop.

A simulated echo pulse of duration D elapsed 58-microsecond ticks
(D >= 1, since a pulse that is never seen high never lets the routine
reach the counting loop) makes the counting-loop checks at elapsed
ticks 1, ..., D-1 read the line high and the check at tick D read it
low: the check after k ticks reads high exactly when 58*k microseconds
is still strictly inside the pulse.  Hence such a pulse is the
observation list `List.replicate (D - 1) true`.

C variables of type unsigned char are 8-bit: the revised loop increments
`range` without a guard, so it is stored modulo 256; the baseline loop
guards the increment with `range < 255`, which keeps it below 256 on its
own.
-/

namespace Sonar

/-- Baseline range-counting do-while loop (source lines 60-66):
each iteration delays 58 us, increments `range` only when it is below
255 (saturation guard), then reads ECHO; the loop repeats while ECHO
reads high.  The observation list holds the ECHO samples read by the
checks; the end of the list is a deasserted sample. -/
def countLoop : List Bool → Nat → Nat
  | [], range => if range < 255 then range + 1 else range
  | b :: rest, range =>
      let r2 := if range < 255 then range + 1 else range
      if b then countLoop rest r2 else r2

/-- Baseline routine value on an arbitrary counting-phase
observation list, starting from `range = 0` (source line 56). -/
def sonar_range_count (obs : List Bool) : Nat :=
  countLoop obs 0

/-- Counting-loop observations produced by a simulated echo pulse of
duration D elapsed 58-microsecond ticks: checks 1..D-1 read high, the
check at tick D reads low. -/
def echoTicks (D : Nat) : List Bool :=
  List.replicate (D - 1) true

/-- Baseline `sonar_range` (source lines 48-69) on a simulated echo
pulse of D ticks.  The TRIG pulse and the wait for the echo to assert
do not affect the returned value, so only the counting phase appears. -/
def sonar_range (D : Nat) : Nat :=
  sonar_range_count (echoTicks D)

/-- Revised range-counting do-while loop (source lines 357-365):
each iteration delays 58 us, increments the 8-bit `range` (stored
modulo 256, no saturation guard), returns 0 at once when `range`
equals `maxRange`, then reads ECHO and repeats while it is high. -/
def countLoopMax (maxRange : Nat) : List Bool → Nat → Nat
  | [], range =>
      let r2 := (range + 1) % 256
      if r2 = maxRange then 0 else r2
  | b :: rest, range =>
      let r2 := (range + 1) % 256
      if r2 = maxRange then 0
      else if b then countLoopMax maxRange rest r2 else r2

/-- Revised routine value on an arbitrary counting-phase observation
list, starting from `range = 0` (source line 353). -/
def sonar_range_max_count (maxRange : Nat) (obs : List Bool) : Nat :=
  countLoopMax maxRange obs 0

/-- Revised `sonar_range(maxRange)` (source lines 341-366) on a
simulated echo pulse of D ticks.  `maxRange` is an unsigned char, so
theorems assume it is at most 255. -/
def sonar_range_max (maxRange D : Nat) : Nat :=
  sonar_range_max_count maxRange (echoTicks D)

/-- `sonar_ready` (source lines 315-322): returns false when the ECHO
line currently reads high, true otherwise. -/
def sonar_ready (echo : Bool) : Bool :=
  if echo then false else true

/-- LATC value written by the LED display cascade in `main`
(source lines 102-121), evaluated top-down with strict comparisons. -/
def led_display (distance : Nat) : Nat :=
  if distance > 20 then 0xF0
  else if distance > 10 then 0x70
  else if distance > 5 then 0x30
  else if distance > 1 then 0x10
  else 0

/-- Discrete display level of a cascade LATC pattern: the number of lit
LEDs, 4 for 0b11110000 down to 0 for the all-off pattern. -/
def display_level (latc : Nat) : Nat :=
  if latc = 0xF0 then 4
  else if latc = 0x70 then 3
  else if latc = 0x30 then 2
  else if latc = 0x10 then 1
  else 0

/-- Display mapper: distance to discrete level through the cascade. -/
def map_to_display (distance : Nat) : Nat :=
  display_level (led_display distance)

/-- Externally visible events of the revised routine: ECHO samples,
TRIG writes and busy-wait delays. -/
inductive Ev where
  | echoRead : Bool → Ev
  | trigSet : Bool → Ev
  | delayUs : Nat → Ev
  | delayMs : Nat → Ev
deriving DecidableEq

/-- Event trace of the revised counting loop on an observation list:
each iteration is a 58 us delay followed by an ECHO sample; the final
iteration (end of list) performs its delay, its sample being the
deasserted one that ends the trace. -/
def countTrace : List Bool → List Ev
  | [] => [Ev.delayUs 58]
  | b :: rest =>
      Ev.delayUs 58 :: Ev.echoRead b :: (if b then countTrace rest else [])

/-- Event trace of one execution of the revised `sonar_range(maxRange)`
(source lines 341-366): `pre1` high samples read by the wait for the
previous echo pulse to finish, then the low sample that ends that wait,
the 1 ms settle delay, the 20 us TRIG pulse, `pre2` low samples read by
the wait for the new echo pulse to start, the high sample that ends
that wait, and the counting-loop events. -/
def revisedTrace (pre1 pre2 : Nat) (obs : List Bool) : List Ev :=
  List.replicate pre1 (Ev.echoRead true) ++
    (Ev.echoRead false :: Ev.delayMs 1 ::
      Ev.trigSet true :: Ev.delayUs 20 :: Ev.trigSet false ::
      (List.replicate pre2 (Ev.echoRead false) ++
        (Ev.echoRead true :: countTrace obs)))

/-- Fuel-indexed busy-wait for ECHO to assert (source line 57,
`while(ECHO == 0);`).  `echo` gives the value of the n-th read of the
line; the result is the index of the read following the first high
read, or `none` when the fuel runs out before a high read. -/
def waitHigh (echo : Nat → Bool) : Nat → Nat → Option Nat
  | _, 0 => none
  | i, fuel + 1 => if echo i then some (i + 1) else waitHigh echo (i + 1) fuel

/-- Fuel-indexed baseline counting loop over the read stream
(source lines 60-66): each iteration saturates the increment at 255
and keeps looping while the next read of the line is high. -/
def countHigh (echo : Nat → Bool) : Nat → Nat → Nat → Option Nat
  | _, _, 0 => none
  | i, range, fuel + 1 =>
      let r2 := if range < 255 then range + 1 else range
      if echo i then countHigh echo (i + 1) r2 fuel else some r2

/-- Fuel-indexed baseline `sonar_range` over a stream of ECHO reads:
wait for the line to read high, then count until it reads low.
`none` models non-termination within the given fuel. -/
def sonar_range_fuel (echo : Nat → Bool) (fuel : Nat) : Option Nat :=
  match waitHigh echo 0 fuel with
  | none => none
  | some i => countHigh echo i 0 fuel

lemma countLoop_replicate :
    ∀ (n r : Nat), r ≤ 255 →
      countLoop (List.replicate n true) r = min (r + n + 1) 255 := by
  intro n
  induction n with
  | zero =>
      intro r hr
      simp only [List.replicate, countLoop]
      split <;> omega
  | succ m ih =>
      intro r hr
      rw [List.replicate_succ]
      simp only [countLoop, if_true]
      by_cases h : r < 255
      · rw [if_pos h, ih (r + 1) (by omega)]
        omega
      · rw [if_neg h, ih r hr]
        omega

lemma sonar_range_eq (D : Nat) : sonar_range D = min (max D 1) 255 := by
  unfold sonar_range sonar_range_count echoTicks
  rw [countLoop_replicate (D - 1) 0 (by omega)]
  omega

lemma countLoop_pos : ∀ (obs : List Bool) (r : Nat), 1 ≤ countLoop obs r := by
  intro obs
  induction obs with
  | nil =>
      intro r
      simp only [countLoop]
      split <;> omega
  | cons b rest ih =>
      intro r
      simp only [countLoop]
      by_cases hb : b = true
      · subst hb
        simp only [if_true]
        by_cases h : r < 255
        · rw [if_pos h]; exact ih (r + 1)
        · rw [if_neg h]; exact ih r
      · have hb2 : b = false := by
          cases b
          · rfl
          · exact absurd rfl hb
        subst hb2
        simp only [Bool.false_eq_true, if_false]
        split <;> omega

lemma countLoopMax_replicate (M : Nat) (hM1 : 1 ≤ M) (hM : M ≤ 255) :
    ∀ (n r : Nat), r < M →
      countLoopMax M (List.replicate n true) r =
        if M ≤ r + n + 1 then 0 else r + n + 1 := by
  intro n
  induction n with
  | zero =>
      intro r hr
      simp only [List.replicate, countLoopMax]
      have hmod : (r + 1) % 256 = r + 1 := Nat.mod_eq_of_lt (by omega)
      rw [hmod]
      by_cases h : r + 1 = M
      · rw [if_pos h, if_pos (by omega)]
      · rw [if_neg h, if_neg (by omega)]
  | succ m ih =>
      intro r hr
      rw [List.replicate_succ]
      simp only [countLoopMax, if_true]
      have hmod : (r + 1) % 256 = r + 1 := Nat.mod_eq_of_lt (by omega)
      rw [hmod]
      by_cases h : r + 1 = M
      · rw [if_pos h, if_pos (by omega)]
      · rw [if_neg h, ih (r + 1) (by omega)]
        by_cases h2 : M ≤ r + m + 2
        · rw [if_pos (by omega), if_pos (by omega)]
        · rw [if_neg (by omega), if_neg (by omega)]
          omega

lemma countLoopMax_zero_replicate :
    ∀ (n r : Nat), r < 256 →
      countLoopMax 0 (List.replicate n true) r =
        if r + n + 1 < 256 then r + n + 1 else 0 := by
  intro n
  induction n with
  | zero =>
      intro r hr
      simp only [List.replicate, countLoopMax]
      by_cases h : r + 1 = 256
      · have hmod : (r + 1) % 256 = 0 := by omega
        rw [hmod, if_pos rfl, if_neg (by omega)]
      · have hmod : (r + 1) % 256 = r + 1 := Nat.mod_eq_of_lt (by omega)
        rw [hmod, if_neg (by omega), if_pos (by omega)]
  | succ m ih =>
      intro r hr
      rw [List.replicate_succ]
      simp only [countLoopMax, if_true]
      by_cases h : r + 1 = 256
      · have hmod : (r + 1) % 256 = 0 := by omega
        rw [hmod, if_pos rfl, if_neg (by omega)]
      · have hmod : (r + 1) % 256 = r + 1 := Nat.mod_eq_of_lt (by omega)
        rw [hmod, if_neg (by omega), ih (r + 1) (by omega)]
        by_cases h2 : r + m + 2 < 256
        · rw [if_pos (by omega), if_pos (by omega)]
          omega
        · rw [if_neg (by omega), if_neg (by omega)]

lemma countLoopMax_lt (M : Nat) (hM1 : 1 ≤ M) (hM : M ≤ 255) :
    ∀ (obs : List Bool) (r : Nat), r < M → countLoopMax M obs r < M := by
  intro obs
  induction obs with
  | nil =>
      intro r hr
      simp only [countLoopMax]
      have hmod : (r + 1) % 256 = r + 1 := Nat.mod_eq_of_lt (by omega)
      rw [hmod]
      by_cases h : r + 1 = M
      · rw [if_pos h]; omega
      · rw [if_neg h]; omega
  | cons b rest ih =>
      intro r hr
      simp only [countLoopMax]
      have hmod : (r + 1) % 256 = r + 1 := Nat.mod_eq_of_lt (by omega)
      rw [hmod]
      by_cases h : r + 1 = M
      · rw [if_pos h]; omega
      · rw [if_neg h]
        by_cases hb : b = true
        · subst hb
          simp only [if_true]
          exact ih (r + 1) (by omega)
        · have hb2 : b = false := by
            cases b
            · rfl
            · exact absurd rfl hb
          subst hb2
          simp only [Bool.false_eq_true, if_false]
          omega

lemma waitHigh_none (echo : Nat → Bool) (h : ∀ t, echo t = false) :
    ∀ (fuel i : Nat), waitHigh echo i fuel = none := by
  intro fuel
  induction fuel with
  | zero => intro i; rfl
  | succ m ih =>
      intro i
      simp only [waitHigh, h i, Bool.false_eq_true, if_false]
      exact ih (i + 1)

lemma waitHigh_exact (echo : Nat → Bool) :
    ∀ (n i : Nat), echo (i + n) = true → (∀ j, j < n → echo (i + j) = false) →
      waitHigh echo i (n + 1) = some (i + n + 1) := by
  intro n
  induction n with
  | zero =>
      intro i hhi _
      simp only [Nat.add_zero] at hhi
      simp [waitHigh, hhi]
  | succ m ih =>
      intro i hhi hlo
      have h0 : echo i = false := by
        have := hlo 0 (by omega)
        simpa using this
      simp only [waitHigh, h0, Bool.false_eq_true, if_false]
      have e1 : i + 1 + m = i + (m + 1) := by omega
      have hrec := ih (i + 1) (by rw [e1]; exact hhi)
        (fun j hj => by
          have := hlo (j + 1) (by omega)
          have e2 : i + 1 + j = i + (j + 1) := by omega
          rw [e2]; exact this)
      have e3 : i + 1 + m + 1 = i + (m + 1) + 1 := by omega
      rw [e3] at hrec
      exact hrec

lemma waitHigh_mono (echo : Nat → Bool) :
    ∀ (fuel fuel2 i v : Nat), fuel ≤ fuel2 → waitHigh echo i fuel = some v →
      waitHigh echo i fuel2 = some v := by
  intro fuel
  induction fuel with
  | zero =>
      intro fuel2 i v _ hsome
      exact absurd hsome (by simp [waitHigh])
  | succ m ih =>
      intro fuel2 i v hle hsome
      obtain ⟨k, rfl⟩ : ∃ k, fuel2 = k + 1 := ⟨fuel2 - 1, by omega⟩
      cases he : echo i with
      | true =>
          simp only [waitHigh, he, if_true] at hsome ⊢
          exact hsome
      | false =>
          simp only [waitHigh, he, Bool.false_eq_true, if_false] at hsome ⊢
          exact ih k (i + 1) v (by omega) hsome

lemma countHigh_exact (echo : Nat → Bool) :
    ∀ (n i r : Nat), echo (i + n) = false → (∀ j, j < n → echo (i + j) = true) →
      ∃ v, countHigh echo i r (n + 1) = some v := by
  intro n
  induction n with
  | zero =>
      intro i r hlo _
      simp only [Nat.add_zero] at hlo
      exact ⟨if r < 255 then r + 1 else r, by simp [countHigh, hlo]⟩
  | succ m ih =>
      intro i r hlo hhi
      have h0 : echo i = true := hhi 0 (by omega)
      simp only [countHigh, h0, if_true]
      have e1 : i + 1 + m = i + (m + 1) := by omega
      exact ih (i + 1) (if r < 255 then r + 1 else r) (by rw [e1]; exact hlo)
        (fun j hj => by
          have := hhi (j + 1) (by omega)
          have e2 : i + 1 + j = i + (j + 1) := by omega
          rw [e2]; exact this)

lemma countHigh_mono (echo : Nat → Bool) :
    ∀ (fuel fuel2 i r v : Nat), fuel ≤ fuel2 → countHigh echo i r fuel = some v →
      countHigh echo i r fuel2 = some v := by
  intro fuel
  induction fuel with
  | zero =>
      intro fuel2 i r v _ hsome
      exact absurd hsome (by simp [countHigh])
  | succ m ih =>
      intro fuel2 i r v hle hsome
      obtain ⟨k, rfl⟩ : ∃ k, fuel2 = k + 1 := ⟨fuel2 - 1, by omega⟩
      cases he : echo i with
      | true =>
          simp only [countHigh, he, if_true] at hsome ⊢
          exact ih k (i + 1) (if r < 255 then r + 1 else r) v (by omega) hsome
      | false =>
          simp only [countHigh, he, Bool.false_eq_true, if_false] at hsome ⊢
          exact hsome

/-- C1: for every simulated echo pulse of duration D elapsed
58-microsecond ticks (D is at least 1, since a pulse the counting loop
never sees high leaves the routine stuck waiting for the echo to
start), the baseline sonar_range with no maxRange bound returns
min D 255; in particular a 1000-tick pulse yields exactly 255, with no
wrap-around of the 8-bit counter. -/
theorem C1_baseline_min_saturate :
    (∀ D : Nat, 1 ≤ D → sonar_range D = min D 255) ∧ sonar_range 1000 = 255 := by
  constructor
  · intro D hD
    rw [sonar_range_eq]
    omega
  · rw [sonar_range_eq]
    omega

/-- Witness for C1 at the concrete duration 7. -/
theorem C1_witness : 1 ≤ 7 ∧ sonar_range 7 = min 7 255 :=
  ⟨by omega, C1_baseline_min_saturate.1 7 (by omega)⟩

/-- C2: for every simulated echo pulse duration D (at least one tick)
and every maxRange bound M with 1 <= M <= 255 (M is an unsigned char),
the revised sonar_range returns D when D < M and returns 0 when
D >= M. -/
theorem C2_maxrange_cases (D M : Nat) (hD : 1 ≤ D) (hM1 : 1 ≤ M) (hM : M ≤ 255) :
    (D < M → sonar_range_max M D = D) ∧ (M ≤ D → sonar_range_max M D = 0) := by
  unfold sonar_range_max sonar_range_max_count echoTicks
  rw [countLoopMax_replicate M hM1 hM (D - 1) 0 (by omega)]
  constructor
  · intro h
    rw [if_neg (by omega)]
    omega
  · intro h
    rw [if_pos (by omega)]

/-- Witness for C2 at D = 3, M = 10 (below the bound) and D = 12,
M = 10 (at or beyond the bound). -/
theorem C2_witness :
    (1 ≤ 3 ∧ 1 ≤ 10 ∧ (10 : Nat) ≤ 255 ∧ sonar_range_max 10 3 = 3) ∧
      sonar_range_max 10 12 = 0 :=
  ⟨⟨by omega, by omega, by omega,
      (C2_maxrange_cases 3 10 (by omega) (by omega) (by omega)).1 (by omega)⟩,
    (C2_maxrange_cases 12 10 (by omega) (by omega) (by omega)).2 (by omega)⟩

/-- C3 counterexample: with maxRange 0 and a 5-tick echo pulse the
revised routine returns 5, not 0, so maxRange 0 does not disable
ranging with an immediate 0 on the first counting tick. -/
theorem C3_counterexample : ¬ sonar_range_max 0 5 = 0 := by decide

/-- C3 (amended): with maxRange 0 the bound is effectively absent for
pulses of up to 255 ticks: the revised routine returns D for
1 <= D <= 255; only when the pulse lasts 256 ticks or more does the
8-bit counter wrap around to 0, match maxRange, and produce a 0 return
at the 256th counting tick, not the first. -/
theorem C3_amended_wrap (D : Nat) (hD : 1 ≤ D) :
    sonar_range_max 0 D = if D ≤ 255 then D else 0 := by
  unfold sonar_range_max sonar_range_max_count echoTicks
  rw [countLoopMax_zero_replicate (D - 1) 0 (by omega)]
  by_cases h : D ≤ 255
  · rw [if_pos (by omega), if_pos h]
    omega
  · rw [if_neg (by omega), if_neg h]

/-- Witness for the amended C3 at the concrete duration 5. -/
theorem C3_witness : 1 ≤ 5 ∧ sonar_range_max 0 5 = if 5 ≤ 255 then 5 else 0 :=
  ⟨by omega, C3_amended_wrap 5 (by omega)⟩

/-- C4: the display mapper is the top-down strict-comparison cascade of
main, and it takes the specified values at every threshold boundary. -/
theorem C4_display_boundaries :
    (∀ d : Nat, map_to_display d =
      if d > 20 then 4
      else if d > 10 then 3
      else if d > 5 then 2
      else if d > 1 then 1
      else 0) ∧
    map_to_display 21 = 4 ∧ map_to_display 20 = 3 ∧ map_to_display 11 = 3 ∧
    map_to_display 10 = 2 ∧ map_to_display 6 = 2 ∧ map_to_display 5 = 1 ∧
    map_to_display 2 = 1 ∧ map_to_display 1 = 0 ∧ map_to_display 0 = 0 := by
  refine ⟨?_, by decide, by decide, by decide, by decide, by decide,
    by decide, by decide, by decide, by decide⟩
  intro d
  by_cases h1 : d > 20 <;> by_cases h2 : d > 10 <;> by_cases h3 : d > 5 <;>
    by_cases h4 : d > 1 <;>
      simp [map_to_display, led_display, display_level, h1, h2, h3, h4]

/-- C5: sonar_ready returns true exactly when the ECHO line currently
reads deasserted. -/
theorem C5_ready_iff_low (e : Bool) : sonar_ready e = true ↔ e = false := by
  cases e <;> decide

/-- C7: an echo pulse asserted for exactly 58 x 15 microseconds is 15
elapsed ticks; with no bound the baseline routine returns 15 and the
display mapper sends that distance to level 3. -/
theorem C7_scenario_15 :
    sonar_range 15 = 15 ∧ map_to_display (sonar_range 15) = 3 := by decide

/-- C9: on every counting-phase observation list the baseline routine
returns at least 1, because the do-while body increments the counter
once before the echo line is first tested, so the baseline routine can
never produce the 0 sentinel. -/
theorem C9_baseline_at_least_one (obs : List Bool) : 1 ≤ sonar_range_count obs :=
  countLoop_pos obs 0

/-- C10: for every maxRange bound M with 1 <= M <= 255 and every
counting-phase observation list, the revised routine returns a value
strictly below M: the counter reaching M forces an immediate 0. -/
theorem C10_result_below_max (M : Nat) (obs : List Bool)
    (hM1 : 1 ≤ M) (hM : M ≤ 255) :
    sonar_range_max_count M obs < M :=
  countLoopMax_lt M hM1 hM obs 0 hM1

/-- Witness for C10 at M = 10 on a two-tick-high observation list. -/
theorem C10_witness :
    1 ≤ 10 ∧ (10 : Nat) ≤ 255 ∧ sonar_range_max_count 10 [true, true] < 10 :=
  ⟨by omega, by omega, C10_result_below_max 10 [true, true] (by omega) (by omega)⟩

/-- C6: in every execution trace of the revised routine the echo line
is observed deasserted at position pre1, the 1 ms settle delay follows
it, the trigger is asserted right after, and no trigger assertion
occurs anywhere before that point: a new measurement never begins
while the previous echo pulse is still being observed asserted. -/
theorem C6_trigger_only_after_idle (pre1 pre2 : Nat) (obs : List Bool) :
    (revisedTrace pre1 pre2 obs)[pre1]? = some (Ev.echoRead false) ∧
    (revisedTrace pre1 pre2 obs)[pre1 + 1]? = some (Ev.delayMs 1) ∧
    (revisedTrace pre1 pre2 obs)[pre1 + 2]? = some (Ev.trigSet true) ∧
    ∀ i, (revisedTrace pre1 pre2 obs)[i]? = some (Ev.trigSet true) → pre1 + 2 ≤ i := by
  refine ⟨?_, ?_, ?_, ?_⟩
  · rw [revisedTrace, List.getElem?_append_right (by simp)]
    simp
  · rw [revisedTrace, List.getElem?_append_right (by simp)]
    simp
  · rw [revisedTrace, List.getElem?_append_right (by simp)]
    simp
  · intro i hi
    by_contra hlt
    push_neg at hlt
    rcases Nat.lt_or_ge i pre1 with hcase | hcase
    · rw [revisedTrace, List.getElem?_append_left (by simpa using hcase)] at hi
      rw [List.getElem?_replicate, if_pos hcase] at hi
      simp at hi
    · have : i = pre1 ∨ i = pre1 + 1 := by omega
      rcases this with rfl | rfl
      · rw [revisedTrace, List.getElem?_append_right (by simp)] at hi
        simp at hi
      · rw [revisedTrace, List.getElem?_append_right (by simp)] at hi
        simp at hi

/-- Witness for C6 on the concrete trace with one pre-trigger high
sample: the trigger assertion sits at index 3, after the low sample. -/
theorem C6_witness :
    (revisedTrace 1 0 [])[3]? = some (Ev.trigSet true) ∧ 1 + 2 ≤ 3 :=
  ⟨by decide, (C6_trigger_only_after_idle 1 0 []).2.2.2 3 (by decide)⟩

/-- C8: over any stream of ECHO reads, if the line eventually reads
high and later reads low then some fuel makes the fuel-indexed
baseline routine return a value, and if the line never reads high
then it returns none for every fuel: the wait for echo assertion is an
unbounded busy-wait with no timeout. -/
theorem C8_termination_divergence :
    (∀ echo : Nat → Bool,
        (∃ a b, a < b ∧ echo a = true ∧ echo b = false) →
        ∃ fuel r, sonar_range_fuel echo fuel = some r) ∧
    (∀ echo : Nat → Bool, (∀ t, echo t = false) →
        ∀ fuel, sonar_range_fuel echo fuel = none) := by
  constructor
  · rintro echo ⟨a, b, hab, ha, hb⟩
    have hex : ∃ t, echo t = true := ⟨a, ha⟩
    have hA : echo (Nat.find hex) = true := Nat.find_spec hex
    have hAmin : ∀ j, j < Nat.find hex → echo j = false := by
      intro j hj
      have := Nat.find_min hex hj
      simpa using this
    have hAa : Nat.find hex ≤ a := Nat.find_min' hex ha
    have hwait : waitHigh echo 0 (Nat.find hex + 1) = some (Nat.find hex + 1) := by
      have := waitHigh_exact echo (Nat.find hex) 0 (by simpa using hA)
        (fun j hj => by simpa using hAmin j hj)
      simpa using this
    have hex2 : ∃ t, echo (Nat.find hex + 1 + t) = false := by
      refine ⟨b - (Nat.find hex + 1), ?_⟩
      have e : Nat.find hex + 1 + (b - (Nat.find hex + 1)) = b := by omega
      rw [e]
      exact hb
    have hB : echo (Nat.find hex + 1 + Nat.find hex2) = false := Nat.find_spec hex2
    have hBmin : ∀ j, j < Nat.find hex2 → echo (Nat.find hex + 1 + j) = true := by
      intro j hj
      have hne := Nat.find_min hex2 hj
      cases hcase : echo (Nat.find hex + 1 + j)
      · exact absurd hcase hne
      · rfl
    obtain ⟨v, hcount⟩ :=
      countHigh_exact echo (Nat.find hex2) (Nat.find hex + 1) 0 hB hBmin
    refine ⟨Nat.find hex + Nat.find hex2 + 2, v, ?_⟩
    have hwait2 :
        waitHigh echo 0 (Nat.find hex + Nat.find hex2 + 2) = some (Nat.find hex + 1) :=
      waitHigh_mono echo (Nat.find hex + 1) (Nat.find hex + Nat.find hex2 + 2) 0
        (Nat.find hex + 1) (by omega) hwait
    have hcount2 :
        countHigh echo (Nat.find hex + 1) 0 (Nat.find hex + Nat.find hex2 + 2) = some v :=
      countHigh_mono echo (Nat.find hex2 + 1) (Nat.find hex + Nat.find hex2 + 2)
        (Nat.find hex + 1) 0 v (by omega) hcount
    unfold sonar_range_fuel
    rw [hwait2]
    exact hcount2
  · intro echo h fuel
    unfold sonar_range_fuel
    rw [waitHigh_none echo h fuel 0]

/-- Witness for C8: a stream that reads high on the second read and low
right after terminates with some fuel, and the all-low stream yields
none at the concrete fuel 5. -/
theorem C8_witness :
    (∃ fuel r, sonar_range_fuel (fun t => decide (t = 1)) fuel = some r) ∧
    sonar_range_fuel (fun _ => false) 5 = none :=
  ⟨C8_termination_divergence.1 (fun t => decide (t = 1))
      ⟨1, 2, by omega, by decide, by decide⟩,
    C8_termination_divergence.2 (fun _ => false) (fun _ => rfl) 5⟩

end Sonar
